import Mathlib

/-!
Verification of the Sudoku solver in `solve.py` (class `Sudoku`).

The Python program operates on a mutable 9x9 grid of digits 0..9 stored as a
list of lists (`self._puzzle`); 0 marks a blank cell.  We embed the grid as a
total function `Fin 9 → Fin 9 → Fin 10` and thread the state explicitly:
every Python method that mutates `self._puzzle` becomes a Lean function that
returns the new grid.

Embedded operations (each is a direct translation of the Python source):
 * `nextLocation`        embeds `Sudoku._next_location` (lines 48-67);
 * `isValidGuess`        embeds `Sudoku._is_valid_guess` (lines 69-94);
 * `solveA` / `tryGuessesA` embed `Sudoku.solve` (lines 96-130): `solveA`
   is the body of `solve`, and `tryGuessesA` is the `for guess in
   range(1, 10)` loop of lines 119-128 together with the fall-through
   restore/return of lines 129-130, expressed as recursion over the list
   `guessList = [1,...,9]` of remaining candidates;
 * `splitStringInterval`, `strToInt`, `createPuzzleGrid` embed
   `Sudoku._split_string_interval`, Python's `int` on a digit string, and
   `Sudoku._create_puzzle_grid` (lines 15-39); a Python `ValueError`
   escaping from `int` is modelled by `Option.none`.

The recursion of `solve` strictly increases the row-major index
`9*i + j` of the visited cell, so every call chain from `(0,0)` is at most
81 frames deep.  `solveA` therefore takes an explicit depth bound (its
first argument) and `solve0 g = solveA 81 g 0 0` embeds the call
`solve(0, 0)`; the theorem `solveA_fuel_high` below proves that the bound
is never exhausted, i.e. any bound of at least `81 - (9*i + j)` yields the
same result, so the bound is invisible in the embedded behaviour.

The result structure `SR` carries, besides the returned boolean `ok` and
the final grid, two ghost histories that let us state the spec's claims
about what happens *during* the run of the in-place Python code:
 * `states`: the grid state after each mutation of `self._puzzle`
   (the assignment on line 121 and the reset on line 129), in order;
 * `checks`: one `CheckEv i j guess v` per call of
   `self._is_valid_guess(i, j, guess)` on line 120, where `v` is the value
   held by cell `(i, j)` at the moment of that call.
-/

/-- Position of a cell: (row, column), both in `[0, 9)`. -/
abbrev Pos := Fin 9 × Fin 9

/-- The 9x9 grid of cell values `0..9`; `0` is a blank cell.  This embeds
`self._puzzle`, a Python list of 9 lists of 9 ints built from digit
characters. -/
abbrev Grid := Fin 9 → Fin 9 → Fin 10

/-- Writing `v` into cell `(i, j)`: the embedding of the Python statement
`self._puzzle[i][j] = v`. -/
def update (g : Grid) (i j : Fin 9) (v : Fin 10) : Grid :=
  fun r c => if r = i ∧ c = j then v else g r c

/-- Build a grid from a list of rows (missing entries default to 0); used
only to write down concrete test grids. -/
def mkGrid (l : List (List (Fin 10))) : Grid :=
  fun i j => (l.getD i.val []).getD j.val 0

/-- Row-major index of a position, `9*row + col`. -/
def idxP (p : Pos) : Nat := 9 * p.1.val + p.2.val

/-- Two cells constrain each other: same row, same column, or same 3x3 box.
The box of `(i, j)` consists of the cells `(r, c)` with `r / 3 = i / 3` and
`c / 3 = j / 3`. -/
def sameUnit (p q : Pos) : Prop :=
  p.1 = q.1 ∨ p.2 = q.2 ∨ (p.1.val / 3 = q.1.val / 3 ∧ p.2.val / 3 = q.2.val / 3)

instance (p q : Pos) : Decidable (sameUnit p q) := by
  unfold sameUnit; infer_instance

/-- No two distinct mutually constraining cells hold the same non-zero
value: the grid has no duplicate non-zero digit in any row, column or box. -/
def conflictFree (g : Grid) : Prop :=
  ∀ p q : Pos, p ≠ q → sameUnit p q → g p.1 p.2 ≠ 0 → g p.1 p.2 ≠ g q.1 q.2

instance (g : Grid) : Decidable (conflictFree g) := by
  unfold conflictFree; infer_instance

/-- Embedding of `Sudoku._next_location` (solve.py lines 48-67):
`next_j = (j + 1) % 9`; if it is 0, `next_i = (i + 1) % 9` and the result is
`(next_i, 0)` unless `next_i` is 0 (no next location, `None`); otherwise the
result is `(i, next_j)`. -/
def nextLocation (i j : Fin 9) : Option (Fin 9 × Fin 9) :=
  let nextJ : Nat := (j.val + 1) % 9
  if hj : nextJ = 0 then
    let nextI : Nat := (i.val + 1) % 9
    if hi : nextI ≠ 0 then
      some (⟨nextI, Nat.mod_lt _ (by norm_num)⟩, ⟨nextJ, Nat.mod_lt _ (by norm_num)⟩)
    else
      none
  else
    some (i, ⟨nextJ, Nat.mod_lt _ (by norm_num)⟩)

/-- Embedding of `Sudoku._is_valid_guess` (solve.py lines 69-94): scan row
`i`, then column `j`, then the 3x3 box starting at
`((i // 3) * 3, (j // 3) * 3)`; return `false` as soon as a cell holding
`guess` is found, `true` otherwise.  The Python loop
`for var_row in range(start_x, start_x + 3)` is expressed by offsets
`a, b : Fin 3` from the box corner. -/
def isValidGuess (g : Grid) (i j : Fin 9) (guess : Fin 10) : Bool :=
  if (List.finRange 9).any (fun c => g i c == guess) then false
  else if (List.finRange 9).any (fun r => g r j == guess) then false
  else if (List.finRange 3).any (fun a => (List.finRange 3).any (fun b =>
      g ⟨(i.val / 3) * 3 + a.val, by have := i.isLt; have := a.isLt; omega⟩
        ⟨(j.val / 3) * 3 + b.val, by have := j.isLt; have := b.isLt; omega⟩ == guess)) then
    false
  else true

/-- Ghost record of one call `self._is_valid_guess(row, col, cand)` made on
line 120 of solve.py; `cellVal` is the value held by cell `(row, col)` at
the moment of the call. -/
structure CheckEv where
  row : Fin 9
  col : Fin 9
  cand : Fin 10
  cellVal : Fin 10
deriving DecidableEq

/-- Result of a `solve` call: the returned boolean, the grid it leaves
behind, and the two ghost histories (intermediate grid states after each
mutation, and the legality-check events). -/
structure SR where
  ok : Bool
  grid : Grid
  states : List Grid
  checks : List CheckEv

/-- The candidate values tried by the loop `for guess in range(1, 10)`. -/
def guessList : List (Fin 10) := [1, 2, 3, 4, 5, 6, 7, 8, 9]

/-- Embedding of the candidate loop of `Sudoku.solve` (solve.py lines
119-130), recursing over the list of remaining candidates.  `recur ni nj g`
stands for the recursive call `self.solve(next_i, next_j)` made from grid
state `g`.  The empty-list case is the fall-through of the loop:
`self._puzzle[i][j] = 0; return False` (lines 129-130).  Note that, as in
the source, a candidate that fails downstream is *not* reset before the
next candidate is checked: the recursion continues on the grid returned by
the failed call. -/
def tryGuessesA (recur : Fin 9 → Fin 9 → Grid → SR) (g : Grid) (i j : Fin 9) :
    List (Fin 10) → SR
  | [] => SR.mk false (update g i j 0) [update g i j 0] []
  | guess :: rest =>
    if isValidGuess g i j guess then
      let g1 := update g i j guess
      match nextLocation i j with
      | none => SR.mk true g1 [g1] [CheckEv.mk i j guess (g i j)]
      | some (ni, nj) =>
        let r := recur ni nj g1
        if r.ok then
          SR.mk true r.grid (g1 :: r.states) (CheckEv.mk i j guess (g i j) :: r.checks)
        else
          let r2 := tryGuessesA recur r.grid i j rest
          SR.mk r2.ok r2.grid (g1 :: (r.states ++ r2.states))
            (CheckEv.mk i j guess (g i j) :: (r.checks ++ r2.checks))
    else
      let r2 := tryGuessesA recur g i j rest
      SR.mk r2.ok r2.grid r2.states (CheckEv.mk i j guess (g i j) :: r2.checks)

/-- Embedding of `Sudoku.solve` (solve.py lines 96-130).  The first
argument bounds the recursion depth; since each recursive call strictly
increases the row-major index of the cell, a bound of `81 - (9*i + j)`
suffices and the zero-fuel branch is never taken from a legal start (see
`solveA_fuel_high`).  A non-zero cell is skipped (lines 111-117); an empty
cell enters the candidate loop (lines 118-130). -/
def solveA : Nat → Grid → Fin 9 → Fin 9 → SR
  | 0, g, _, _ => SR.mk false g [] []
  | n + 1, g, i, j =>
    if g i j ≠ 0 then
      match nextLocation i j with
      | none => SR.mk true g [] []
      | some (ni, nj) => solveA n g ni nj
    else
      tryGuessesA (fun ni nj g2 => solveA n g2 ni nj) g i j guessList

/-- The call `solve(0, 0)` on grid `g` (the default arguments of
`Sudoku.solve`). -/
def solve0 (g : Grid) : SR := solveA 81 g 0 0

/-- Every grid state reachable during the run of `solve(0, 0)`: the initial
grid followed by the state after each mutation of `self._puzzle`. -/
def reachStates (g : Grid) : List Grid := g :: (solve0 g).states

/-- The nine cells of row `r`. -/
def rowUnit (r : Fin 9) : List Pos := (List.finRange 9).map (fun c => (r, c))

/-- The nine cells of column `c`. -/
def colUnit (c : Fin 9) : List Pos := (List.finRange 9).map (fun r => (r, c))

/-- The nine cells of the `b`-th 3x3 box (boxes numbered row-major). -/
def boxUnit (b : Fin 9) : List Pos :=
  (List.finRange 9).map (fun k =>
    (⟨(b.val / 3) * 3 + k.val / 3, by have := b.isLt; have := k.isLt; omega⟩,
     ⟨(b.val % 3) * 3 + k.val % 3, by have := b.isLt; have := k.isLt; omega⟩))

/-- All 27 units of the grid: 9 rows, 9 columns, 9 boxes. -/
def allUnits : List (List Pos) :=
  ((List.finRange 9).map rowUnit) ++ ((List.finRange 9).map colUnit) ++
    ((List.finRange 9).map boxUnit)

/-- Embedding of Python `int(s)` for the strings this program feeds it
(slices of the puzzle string): defined on a non-empty all-digit string,
a `ValueError` (modelled as `none`) otherwise. -/
def strToInt (s : List Char) : Option Nat :=
  if s ≠ [] ∧ s.all Char.isDigit then
    some (s.foldl (fun a c => a * 10 + (c.toNat - 48)) 0)
  else none

/-- Embedding of `Sudoku._split_string_interval` (solve.py lines 29-39):
`[string[x : x + n] for x in range(0, len(string), n)]`.  The Python range
has `⌈len/n⌉` elements and slicing clamps at the end of the string, which
`List.take`/`List.drop` reproduce. -/
def splitStringInterval (s : List Char) (n : Nat) : List (List Char) :=
  (List.range ((s.length + n - 1) / n)).map (fun k => (s.drop (k * n)).take n)

/-- Embedding of `Sudoku._create_puzzle_grid` (solve.py lines 15-27): split
the string into 9-character slices, and map `int` over the 1-character
slices of each; a `ValueError` raised by `int` aborts the construction
(`none`).  No length or format check is performed before splitting. -/
def createPuzzleGrid (s : List Char) : Option (List (List Nat)) :=
  (splitStringInterval s 9).mapM (fun row => (splitStringInterval row 1).mapM strToInt)

/-- The all-blank grid (the 81-zero input string). -/
def gZero : Grid := fun _ _ => 0

/-- The grid with every cell holding 1: fully filled and maximally
conflicting. -/
def gOnes : Grid := fun _ _ => 1

/-- An unsolvable input: row 0 is `0 1 2 3 4 5 6 7 8` and cell `(1,0)`
holds 9, so no candidate fits cell `(0,0)`; every other cell is blank. -/
def gStuck : Grid := mkGrid [[0, 1, 2, 3, 4, 5, 6, 7, 8], [9]]

/-- A grid forcing one backtrack at `(0,0)`: candidate 1 is accepted there,
the recursive call fails at `(0,1)` (row 0 leaves only candidate 2 and cell
`(1,1)` already holds 2), and the search returns to try candidate 2 at
`(0,0)` while the cell still holds the failed 1. -/
def gBacktrack : Grid := mkGrid
  [[0, 0, 3, 4, 5, 6, 7, 8, 9],
   [5, 2, 5, 5, 5, 5, 5, 5, 5],
   [5, 5, 5, 5, 5, 5, 5, 5, 5],
   [5, 5, 5, 5, 5, 5, 5, 5, 5],
   [5, 5, 5, 5, 5, 5, 5, 5, 5],
   [5, 5, 5, 5, 5, 5, 5, 5, 5],
   [5, 5, 5, 5, 5, 5, 5, 5, 5],
   [5, 5, 5, 5, 5, 5, 5, 5, 5],
   [5, 5, 5, 5, 5, 5, 5, 5, 5]]

/-- A complete, conflict-free Sudoku grid (the solution of the canonical
puzzle quoted in the spec). -/
def gSolved : Grid := mkGrid
  [[5, 3, 4, 6, 7, 8, 9, 1, 2],
   [6, 7, 2, 1, 9, 5, 3, 4, 8],
   [1, 9, 8, 3, 4, 2, 5, 6, 7],
   [8, 5, 9, 7, 6, 1, 4, 2, 3],
   [4, 2, 6, 8, 5, 3, 7, 9, 1],
   [7, 1, 3, 9, 2, 4, 8, 5, 6],
   [9, 6, 1, 5, 3, 7, 2, 8, 4],
   [2, 8, 7, 4, 1, 9, 6, 3, 5],
   [3, 4, 5, 2, 8, 6, 1, 7, 9]]

/-- An 80-character all-digit input string (one character short of 81). -/
def s80 : List Char := List.replicate 80 '0'

/-! ## Basic lemmas about `update`, `nextLocation`, and the units -/

theorem update_pos (g : Grid) (i j : Fin 9) (v : Fin 10) : update g i j v i j = v := by
  simp [update]

theorem update_neg (g : Grid) (i j : Fin 9) (v : Fin 10) {r c : Fin 9}
    (h : ¬(r = i ∧ c = j)) : update g i j v r c = g r c := by
  simp [update, h]

theorem update_update (g : Grid) (i j : Fin 9) (a b : Fin 10) :
    update (update g i j a) i j b = update g i j b := by
  funext r c
  by_cases h : r = i ∧ c = j <;> simp [update, h]

theorem update_zero_eq (g : Grid) (i j : Fin 9) (h : g i j = 0) :
    update g i j 0 = g := by
  funext r c
  by_cases hrc : r = i ∧ c = j
  · obtain ⟨hr, hc⟩ := hrc; subst hr; subst hc; simp [update, h]
  · simp [update, hrc]

theorem nextLocation_idx : ∀ i j ni nj : Fin 9, nextLocation i j = some (ni, nj) →
    9 * ni.val + nj.val = 9 * i.val + j.val + 1 := by decide

theorem nextLocation_eq_none : ∀ i j : Fin 9, nextLocation i j = none ↔ (i.val = 8 ∧ j.val = 8) := by
  decide

/-! ## Restore on failure: a failing call leaves the grid as it found it -/

theorem tryGuessesA_restore (recur : Fin 9 → Fin 9 → Grid → SR)
    (hrec : ∀ ni nj g2, (recur ni nj g2).ok = false → (recur ni nj g2).grid = g2) :
    ∀ (gs : List (Fin 10)) (g : Grid) (i j : Fin 9),
      (tryGuessesA recur g i j gs).ok = false →
      (tryGuessesA recur g i j gs).grid = update g i j 0 := by
  intro gs
  induction gs with
  | nil => intro g i j _; simp [tryGuessesA]
  | cons guess rest ih =>
    intro g i j hok
    by_cases hv : isValidGuess g i j guess
    · cases hnext : nextLocation i j with
      | none => simp [tryGuessesA, hv, hnext] at hok
      | some p =>
        obtain ⟨ni, nj⟩ := p
        by_cases hro : (recur ni nj (update g i j guess)).ok = true
        · simp [tryGuessesA, hv, hnext, hro] at hok
        · have hro' : (recur ni nj (update g i j guess)).ok = false := by
            simpa using hro
          have h1 := hrec ni nj (update g i j guess) hro'
          have hok' : (tryGuessesA recur (recur ni nj (update g i j guess)).grid i j rest).ok
              = false := by
            simpa [tryGuessesA, hv, hnext, hro'] using hok
          calc (tryGuessesA recur g i j (guess :: rest)).grid
              = (tryGuessesA recur (recur ni nj (update g i j guess)).grid i j rest).grid := by
                simp [tryGuessesA, hv, hnext, hro']
            _ = update (recur ni nj (update g i j guess)).grid i j 0 := ih _ i j hok'
            _ = update g i j 0 := by rw [h1, update_update]
    · have hok' : (tryGuessesA recur g i j rest).ok = false := by
        simpa [tryGuessesA, hv] using hok
      calc (tryGuessesA recur g i j (guess :: rest)).grid
          = (tryGuessesA recur g i j rest).grid := by simp [tryGuessesA, hv]
        _ = update g i j 0 := ih _ i j hok'

theorem solveA_restore :
    ∀ (n : Nat) (g : Grid) (i j : Fin 9),
      (solveA n g i j).ok = false → (solveA n g i j).grid = g := by
  intro n
  induction n with
  | zero => intro g i j _; simp [solveA]
  | succ n ih =>
    intro g i j hok
    by_cases hz : g i j = 0
    · have hres := tryGuessesA_restore (fun ni nj g2 => solveA n g2 ni nj)
        (fun ni nj g2 h => ih g2 ni nj h) guessList g i j
        (by simpa [solveA, hz] using hok)
      have : (solveA (n + 1) g i j).grid = update g i j 0 := by
        simpa [solveA, hz] using hres
      rw [this, update_zero_eq g i j hz]
    · cases hnext : nextLocation i j with
      | none => simp [solveA, hz, hnext] at hok
      | some p =>
        obtain ⟨ni, nj⟩ := p
        have hok' : (solveA n g ni nj).ok = false := by
          simpa [solveA, hz, hnext] using hok
        have := ih g ni nj hok'
        simpa [solveA, hz, hnext] using this

/-! ## Frame property: cells holding a non-zero value are never overwritten -/

theorem tryGuessesA_preserve (recur : Fin 9 → Fin 9 → Grid → SR)
    (hrec : ∀ ni nj g2 (r c : Fin 9), g2 r c ≠ 0 → (recur ni nj g2).grid r c = g2 r c) :
    ∀ (gs : List (Fin 10)) (g : Grid) (i j r c : Fin 9),
      ¬(r = i ∧ c = j) → g r c ≠ 0 →
      (tryGuessesA recur g i j gs).grid r c = g r c := by
  intro gs
  induction gs with
  | nil => intro g i j r c hne hnz; simp [tryGuessesA, update_neg _ _ _ _ hne]
  | cons guess rest ih =>
    intro g i j r c hne hnz
    by_cases hv : isValidGuess g i j guess
    · cases hnext : nextLocation i j with
      | none =>
        simp [tryGuessesA, hv, hnext, update_neg _ _ _ _ hne]
      | some p =>
        obtain ⟨ni, nj⟩ := p
        have hg1 : update g i j guess r c = g r c := update_neg _ _ _ _ hne
        have hr : (recur ni nj (update g i j guess)).grid r c = g r c := by
          rw [hrec ni nj _ r c (by rw [hg1]; exact hnz), hg1]
        by_cases hro : (recur ni nj (update g i j guess)).ok = true
        · simp [tryGuessesA, hv, hnext, hro, hr]
        · have hro' : (recur ni nj (update g i j guess)).ok = false := by simpa using hro
          have h2 := ih (recur ni nj (update g i j guess)).grid i j r c hne
            (by rw [hr]; exact hnz)
          simp [tryGuessesA, hv, hnext, hro', h2, hr]
    · have h2 := ih g i j r c hne hnz
      simp [tryGuessesA, hv, h2]

theorem solveA_preserve :
    ∀ (n : Nat) (g : Grid) (i j r c : Fin 9),
      g r c ≠ 0 → (solveA n g i j).grid r c = g r c := by
  intro n
  induction n with
  | zero => intro g i j r c _; simp [solveA]
  | succ n ih =>
    intro g i j r c hnz
    by_cases hz : g i j = 0
    · have hne : ¬(r = i ∧ c = j) := by
        rintro ⟨rfl, rfl⟩; exact hnz hz
      have := tryGuessesA_preserve (fun ni nj g2 => solveA n g2 ni nj)
        (fun ni nj g2 a b h => ih g2 ni nj a b h) guessList g i j r c hne hnz
      simpa [solveA, hz] using this
    · cases hnext : nextLocation i j with
      | none => simp [solveA, hz, hnext]
      | some p =>
        obtain ⟨ni, nj⟩ := p
        have := ih g ni nj r c hnz
        simpa [solveA, hz, hnext] using this

/-! ## What the legality check decides -/

theorem box_any_iff (g : Grid) (i j : Fin 9) (v : Fin 10) :
    ((List.finRange 3).any (fun a => (List.finRange 3).any (fun b =>
      g ⟨(i.val / 3) * 3 + a.val, by have := i.isLt; have := a.isLt; omega⟩
        ⟨(j.val / 3) * 3 + b.val, by have := j.isLt; have := b.isLt; omega⟩ == v)) = true) ↔
    ∃ r c : Fin 9, r.val / 3 = i.val / 3 ∧ c.val / 3 = j.val / 3 ∧ g r c = v := by
  simp only [List.any_eq_true, List.mem_finRange, true_and, beq_iff_eq]
  constructor
  · rintro ⟨a, b, h⟩
    refine ⟨⟨(i.val / 3) * 3 + a.val, by have := i.isLt; have := a.isLt; omega⟩,
            ⟨(j.val / 3) * 3 + b.val, by have := j.isLt; have := b.isLt; omega⟩,
            ?_, ?_, h⟩
    · have := i.isLt; have := a.isLt; simp only; omega
    · have := j.isLt; have := b.isLt; simp only; omega
  · rintro ⟨r, c, hr, hc, h⟩
    have hi := i.isLt; have hj := j.isLt; have hri := r.isLt; have hci := c.isLt
    refine ⟨⟨r.val - (i.val / 3) * 3, by omega⟩, ⟨c.val - (j.val / 3) * 3, by omega⟩, ?_⟩
    have h1 : (⟨(i.val / 3) * 3 + (r.val - (i.val / 3) * 3), by omega⟩ : Fin 9) = r :=
      Fin.ext (by simp only; omega)
    have h2 : (⟨(j.val / 3) * 3 + (c.val - (j.val / 3) * 3), by omega⟩ : Fin 9) = c :=
      Fin.ext (by simp only; omega)
    rw [h1, h2]
    exact h

theorem isValidGuess_iff (g : Grid) (i j : Fin 9) (v : Fin 10) :
    isValidGuess g i j v = true ↔
      (∀ c : Fin 9, g i c ≠ v) ∧ (∀ r : Fin 9, g r j ≠ v) ∧
      (∀ r c : Fin 9, r.val / 3 = i.val / 3 → c.val / 3 = j.val / 3 → g r c ≠ v) := by
  by_cases hA : ((List.finRange 9).any (fun c => g i c == v)) = true
  · simp only [isValidGuess, hA, if_true]
    simp only [List.any_eq_true, List.mem_finRange, true_and, beq_iff_eq] at hA
    obtain ⟨c, hc⟩ := hA
    constructor
    · intro h; exact absurd h (by simp)
    · rintro ⟨h1, _, _⟩; exact absurd hc (h1 c)
  · by_cases hB : ((List.finRange 9).any (fun r => g r j == v)) = true
    · simp only [isValidGuess, hA, hB, if_true, if_false]
      simp only [List.any_eq_true, List.mem_finRange, true_and, beq_iff_eq] at hB
      obtain ⟨r, hr⟩ := hB
      constructor
      · intro h; exact absurd h (by simp)
      · rintro ⟨_, h2, _⟩; exact absurd hr (h2 r)
    · by_cases hC : ((List.finRange 3).any (fun a => (List.finRange 3).any (fun b =>
          g ⟨(i.val / 3) * 3 + a.val, by have := i.isLt; have := a.isLt; omega⟩
            ⟨(j.val / 3) * 3 + b.val, by have := j.isLt; have := b.isLt; omega⟩ == v))) = true
      · simp only [isValidGuess, hA, hB, hC, if_true, if_false]
        obtain ⟨r, c, hr, hc, h⟩ := (box_any_iff g i j v).1 hC
        constructor
        · intro h'; exact absurd h' (by simp)
        · rintro ⟨_, _, h3⟩; exact absurd h (h3 r c hr hc)
      · simp only [isValidGuess, hA, hB, hC, if_false]
        simp only [List.any_eq_true, List.mem_finRange, true_and, beq_iff_eq, not_exists]
          at hA hB
        constructor
        · intro _
          refine ⟨hA, hB, ?_⟩
          intro r c hr hc h
          exact hC ((box_any_iff g i j v).2 ⟨r, c, hr, hc, h⟩)
        · intro _; rfl

/-! ## The legality check keeps the grid conflict-free -/

theorem conflictFree_update_valid (g : Grid) (i j : Fin 9) (v : Fin 10)
    (hcf : conflictFree g) (hv : isValidGuess g i j v = true) :
    conflictFree (update g i j v) := by
  obtain ⟨hrow, hcol, hbox⟩ := (isValidGuess_iff g i j v).1 hv
  intro p q hpq hunit hnz
  by_cases hp : p.1 = i ∧ p.2 = j
  · by_cases hq : q.1 = i ∧ q.2 = j
    · exact absurd (Prod.ext (hp.1.trans hq.1.symm) (hp.2.trans hq.2.symm)) hpq
    · rw [update_neg _ _ _ _ hq]
      rw [update] at hnz ⊢
      simp only [hp, and_self, if_true] at hnz ⊢
      rcases hunit with h | h | h
      · have hqi : q.1 = i := by rw [← h, hp.1]
        intro heq
        exact hrow q.2 (hqi ▸ heq.symm)
      · have hqj : q.2 = j := by rw [← h, hp.2]
        intro heq
        exact hcol q.1 (hqj ▸ heq.symm)
      · intro heq
        exact hbox q.1 q.2 (by rw [← h.1, hp.1]) (by rw [← h.2, hp.2]) heq.symm
  · rw [update_neg _ _ _ _ hp] at hnz ⊢
    by_cases hq : q.1 = i ∧ q.2 = j
    · rw [update]
      simp only [hq, and_self, if_true]
      rcases hunit with h | h | h
      · have hpi : p.1 = i := by rw [h, hq.1]
        intro heq
        exact hrow p.2 (hpi ▸ heq)
      · have hpj : p.2 = j := by rw [h, hq.2]
        intro heq
        exact hcol p.1 (hpj ▸ heq)
      · intro heq
        exact hbox p.1 p.2 (by rw [h.1, hq.1]) (by rw [h.2, hq.2]) heq
    · rw [update_neg _ _ _ _ hq]
      exact hcf p q hpq hunit hnz

theorem conflictFree_update_zero (g : Grid) (i j : Fin 9)
    (hcf : conflictFree g) : conflictFree (update g i j 0) := by
  intro p q hpq hunit hnz
  by_cases hp : p.1 = i ∧ p.2 = j
  · rw [update] at hnz
    simp only [hp, and_self, if_true] at hnz
    exact absurd rfl hnz
  · rw [update_neg _ _ _ _ hp] at hnz ⊢
    by_cases hq : q.1 = i ∧ q.2 = j
    · rw [update]
      simp only [hq, and_self, if_true]
      exact hnz
    · rw [update_neg _ _ _ _ hq]
      exact hcf p q hpq hunit hnz

theorem tryGuessesA_cf (recur : Fin 9 → Fin 9 → Grid → SR)
    (hrec : ∀ ni nj g2, conflictFree g2 → conflictFree (recur ni nj g2).grid) :
    ∀ (gs : List (Fin 10)) (g : Grid) (i j : Fin 9),
      conflictFree g → conflictFree (tryGuessesA recur g i j gs).grid := by
  intro gs
  induction gs with
  | nil =>
    intro g i j hcf
    simpa [tryGuessesA] using conflictFree_update_zero g i j hcf
  | cons guess rest ih =>
    intro g i j hcf
    by_cases hv : isValidGuess g i j guess
    · have hg1 : conflictFree (update g i j guess) :=
        conflictFree_update_valid g i j guess hcf hv
      cases hnext : nextLocation i j with
      | none => simpa [tryGuessesA, hv, hnext] using hg1
      | some p =>
        obtain ⟨ni, nj⟩ := p
        by_cases hro : (recur ni nj (update g i j guess)).ok = true
        · simpa [tryGuessesA, hv, hnext, hro] using hrec ni nj _ hg1
        · have hro' : (recur ni nj (update g i j guess)).ok = false := by simpa using hro
          have := ih (recur ni nj (update g i j guess)).grid i j (hrec ni nj _ hg1)
          simpa [tryGuessesA, hv, hnext, hro'] using this
    · have := ih g i j hcf
      simpa [tryGuessesA, hv] using this

theorem solveA_cf :
    ∀ (n : Nat) (g : Grid) (i j : Fin 9),
      conflictFree g → conflictFree (solveA n g i j).grid := by
  intro n
  induction n with
  | zero => intro g i j hcf; simpa [solveA] using hcf
  | succ n ih =>
    intro g i j hcf
    by_cases hz : g i j = 0
    · have := tryGuessesA_cf (fun ni nj g2 => solveA n g2 ni nj)
        (fun ni nj g2 h => ih g2 ni nj h) guessList g i j hcf
      simpa [solveA, hz] using this
    · cases hnext : nextLocation i j with
      | none => simpa [solveA, hz, hnext] using hcf
      | some p =>
        obtain ⟨ni, nj⟩ := p
        have := ih g ni nj hcf
        simpa [solveA, hz, hnext] using this

/-! ## On success, every cell from the current position onward is filled -/

theorem tryGuessesA_complete (recur : Fin 9 → Fin 9 → Grid → SR) (i j : Fin 9)
    (hrecL2 : ∀ ni nj g2 (r c : Fin 9), g2 r c ≠ 0 → (recur ni nj g2).grid r c = g2 r c)
    (hrecL4 : ∀ ni nj g2, nextLocation i j = some (ni, nj) →
      (recur ni nj g2).ok = true →
      ∀ p : Pos, 9 * ni.val + nj.val ≤ idxP p → (recur ni nj g2).grid p.1 p.2 ≠ 0) :
    ∀ (gs : List (Fin 10)), (∀ x ∈ gs, x ≠ 0) → ∀ (g : Grid),
      (tryGuessesA recur g i j gs).ok = true →
      ∀ p : Pos, 9 * i.val + j.val ≤ idxP p →
      (tryGuessesA recur g i j gs).grid p.1 p.2 ≠ 0 := by
  intro gs
  induction gs with
  | nil => intro _ g hok; simp [tryGuessesA] at hok
  | cons guess rest ih =>
    intro hgs g hok p hp
    have hguess : guess ≠ 0 := hgs guess (by simp)
    have hrest : ∀ x ∈ rest, x ≠ 0 := fun x hx => hgs x (by simp [hx])
    have hp1 := p.1.isLt; have hp2 := p.2.isLt
    by_cases hv : isValidGuess g i j guess
    · cases hnext : nextLocation i j with
      | none =>
        have hij : i.val = 8 ∧ j.val = 8 := (nextLocation_eq_none i j).1 hnext
        have hpij : p.1 = i ∧ p.2 = j := by
          unfold idxP at hp
          constructor <;> [apply Fin.ext; apply Fin.ext] <;> omega
        obtain ⟨h1, h2⟩ := hpij
        subst h1; subst h2
        simp [tryGuessesA, hv, hnext, update_pos, hguess]
      | some q =>
        obtain ⟨ni, nj⟩ := q
        have hidx := nextLocation_idx i j ni nj hnext
        by_cases hro : (recur ni nj (update g i j guess)).ok = true
        · have hgoal : (recur ni nj (update g i j guess)).grid p.1 p.2 ≠ 0 := by
            by_cases hpij : p.1 = i ∧ p.2 = j
            · obtain ⟨h1, h2⟩ := hpij
              subst h1; subst h2
              rw [hrecL2 ni nj _ p.1 p.2 (by rw [update_pos]; exact hguess), update_pos]
              exact hguess
            · have : 9 * ni.val + nj.val ≤ idxP p := by
                unfold idxP at hp ⊢
                rcases Decidable.not_and_iff_or_not.1 hpij with h | h
                · have : p.1.val ≠ i.val := fun hc => h (Fin.ext hc)
                  omega
                · have : p.2.val ≠ j.val := fun hc => h (Fin.ext hc)
                  have hij : 9 * p.1.val + p.2.val ≠ 9 * i.val + j.val := by
                    have := i.isLt; have := j.isLt
                    intro hc
                    have : p.2 = j := Fin.ext (by omega)
                    have : p.1 = i := Fin.ext (by omega)
                    simp_all
                  omega
              exact hrecL4 ni nj _ hnext hro p this
          simpa [tryGuessesA, hv, hnext, hro] using hgoal
        · have hro' : (recur ni nj (update g i j guess)).ok = false := by simpa using hro
          have hok' : (tryGuessesA recur (recur ni nj (update g i j guess)).grid i j rest).ok
              = true := by
            simpa [tryGuessesA, hv, hnext, hro'] using hok
          have := ih hrest (recur ni nj (update g i j guess)).grid hok' p hp
          simpa [tryGuessesA, hv, hnext, hro'] using this
    · have hok' : (tryGuessesA recur g i j rest).ok = true := by
        simpa [tryGuessesA, hv] using hok
      have := ih hrest g hok' p hp
      simpa [tryGuessesA, hv] using this

theorem solveA_complete :
    ∀ (n : Nat) (g : Grid) (i j : Fin 9),
      (solveA n g i j).ok = true →
      ∀ p : Pos, 9 * i.val + j.val ≤ idxP p → (solveA n g i j).grid p.1 p.2 ≠ 0 := by
  intro n
  induction n with
  | zero => intro g i j hok; simp [solveA] at hok
  | succ n ih =>
    intro g i j hok p hp
    have hp1 := p.1.isLt; have hp2 := p.2.isLt
    by_cases hz : g i j = 0
    · have := tryGuessesA_complete (fun ni nj g2 => solveA n g2 ni nj) i j
        (fun ni nj g2 r c h => solveA_preserve n g2 ni nj r c h)
        (fun ni nj g2 _ hok2 q hq => ih g2 ni nj hok2 q hq)
        guessList (by decide) g (by simpa [solveA, hz] using hok) p hp
      simpa [solveA, hz] using this
    · cases hnext : nextLocation i j with
      | none =>
        have hij : i.val = 8 ∧ j.val = 8 := (nextLocation_eq_none i j).1 hnext
        have hpij : p.1 = i ∧ p.2 = j := by
          unfold idxP at hp
          constructor <;> [apply Fin.ext; apply Fin.ext] <;> omega
        obtain ⟨h1, h2⟩ := hpij
        subst h1; subst h2
        simp [solveA, hz, hnext]
      | some q =>
        obtain ⟨ni, nj⟩ := q
        have hidx := nextLocation_idx i j ni nj hnext
        have hok' : (solveA n g ni nj).ok = true := by
          simpa [solveA, hz, hnext] using hok
        have hgoal : (solveA n g ni nj).grid p.1 p.2 ≠ 0 := by
          by_cases hpij : p.1 = i ∧ p.2 = j
          · obtain ⟨h1, h2⟩ := hpij
            subst h1; subst h2
            rw [solveA_preserve n g ni nj p.1 p.2 hz]
            exact hz
          · have hle : 9 * ni.val + nj.val ≤ idxP p := by
              unfold idxP at hp ⊢
              rcases Decidable.not_and_iff_or_not.1 hpij with h | h
              · have : p.1.val ≠ i.val := fun hc => h (Fin.ext hc)
                omega
              · have : p.2.val ≠ j.val := fun hc => h (Fin.ext hc)
                have hij2 : 9 * p.1.val + p.2.val ≠ 9 * i.val + j.val := by
                  have := i.isLt; have := j.isLt
                  intro hc
                  have : p.2 = j := Fin.ext (by omega)
                  have : p.1 = i := Fin.ext (by omega)
                  simp_all
                omega
            exact ih g ni nj hok' p hle
        simpa [solveA, hz, hnext] using hgoal

/-! ## Every intermediate grid state of a conflict-free run is conflict-free -/

theorem tryGuessesA_states (recur : Fin 9 → Fin 9 → Grid → SR)
    (hrec_cf : ∀ ni nj g2, conflictFree g2 → conflictFree (recur ni nj g2).grid)
    (hrec_st : ∀ ni nj g2, conflictFree g2 → ∀ s ∈ (recur ni nj g2).states, conflictFree s) :
    ∀ (gs : List (Fin 10)) (g : Grid) (i j : Fin 9),
      conflictFree g → ∀ s ∈ (tryGuessesA recur g i j gs).states, conflictFree s := by
  intro gs
  induction gs with
  | nil =>
    intro g i j hcf s hs
    simp [tryGuessesA] at hs
    rw [hs]
    exact conflictFree_update_zero g i j hcf
  | cons guess rest ih =>
    intro g i j hcf s hs
    by_cases hv : isValidGuess g i j guess
    · have hg1 : conflictFree (update g i j guess) :=
        conflictFree_update_valid g i j guess hcf hv
      cases hnext : nextLocation i j with
      | none =>
        simp [tryGuessesA, hv, hnext] at hs
        rw [hs]; exact hg1
      | some q =>
        obtain ⟨ni, nj⟩ := q
        by_cases hro : (recur ni nj (update g i j guess)).ok = true
        · simp [tryGuessesA, hv, hnext, hro] at hs
          rcases hs with hs | hs
          · rw [hs]; exact hg1
          · exact hrec_st ni nj _ hg1 s hs
        · have hro' : (recur ni nj (update g i j guess)).ok = false := by simpa using hro
          simp [tryGuessesA, hv, hnext, hro'] at hs
          rcases hs with hs | hs | hs
          · rw [hs]; exact hg1
          · exact hrec_st ni nj _ hg1 s hs
          · exact ih (recur ni nj (update g i j guess)).grid i j (hrec_cf ni nj _ hg1) s hs
    · have hs' : s ∈ (tryGuessesA recur g i j rest).states := by
        simpa [tryGuessesA, hv] using hs
      exact ih g i j hcf s hs'

theorem solveA_states :
    ∀ (n : Nat) (g : Grid) (i j : Fin 9),
      conflictFree g → ∀ s ∈ (solveA n g i j).states, conflictFree s := by
  intro n
  induction n with
  | zero => intro g i j _ s hs; simp [solveA] at hs
  | succ n ih =>
    intro g i j hcf s hs
    by_cases hz : g i j = 0
    · have hs' : s ∈ (tryGuessesA (fun ni nj g2 => solveA n g2 ni nj) g i j guessList).states := by
        simpa [solveA, hz] using hs
      exact tryGuessesA_states (fun ni nj g2 => solveA n g2 ni nj)
        (fun ni nj g2 h => solveA_cf n g2 ni nj h)
        (fun ni nj g2 h t ht => ih g2 ni nj h t ht)
        guessList g i j hcf s hs'
    · cases hnext : nextLocation i j with
      | none => simp [solveA, hz, hnext] at hs
      | some q =>
        obtain ⟨ni, nj⟩ := q
        have hs' : s ∈ (solveA n g ni nj).states := by
          simpa [solveA, hz, hnext] using hs
        exact ih g ni nj hcf s hs'

/-! ## At each legality check, the cell holds a value smaller than the candidate -/

theorem tryGuessesA_checks (recur : Fin 9 → Fin 9 → Grid → SR)
    (hrec_restore : ∀ ni nj g2, (recur ni nj g2).ok = false → (recur ni nj g2).grid = g2)
    (hrec_ck : ∀ ni nj g2, ∀ e ∈ (recur ni nj g2).checks, e.cellVal < e.cand) :
    ∀ (gs : List (Fin 10)) (g : Grid) (i j : Fin 9),
      List.Pairwise (· < ·) gs → (∀ x ∈ gs, g i j < x) →
      ∀ e ∈ (tryGuessesA recur g i j gs).checks, e.cellVal < e.cand := by
  intro gs
  induction gs with
  | nil => intro g i j _ _ e he; simp [tryGuessesA] at he
  | cons guess rest ih =>
    intro g i j hsort hlt e he
    have hpair := List.pairwise_cons.1 hsort
    have hcell : g i j < guess := hlt guess (by simp)
    by_cases hv : isValidGuess g i j guess
    · cases hnext : nextLocation i j with
      | none =>
        simp [tryGuessesA, hv, hnext] at he
        rw [he]
        exact hcell
      | some q =>
        obtain ⟨ni, nj⟩ := q
        by_cases hro : (recur ni nj (update g i j guess)).ok = true
        · simp [tryGuessesA, hv, hnext, hro] at he
          rcases he with he | he
          · rw [he]; exact hcell
          · exact hrec_ck ni nj _ e he
        · have hro' : (recur ni nj (update g i j guess)).ok = false := by simpa using hro
          simp [tryGuessesA, hv, hnext, hro'] at he
          rcases he with he | he | he
          · rw [he]; exact hcell
          · exact hrec_ck ni nj _ e he
          · refine ih (recur ni nj (update g i j guess)).grid i j hpair.2 ?_ e he
            intro x hx
            rw [hrec_restore ni nj _ hro', update_pos]
            exact hpair.1 x hx
    · simp [tryGuessesA, hv] at he
      rcases he with he | he
      · rw [he]; exact hcell
      · exact ih g i j hpair.2 (fun x hx => hlt x (by simp [hx])) e he

theorem solveA_checks :
    ∀ (n : Nat) (g : Grid) (i j : Fin 9),
      ∀ e ∈ (solveA n g i j).checks, e.cellVal < e.cand := by
  intro n
  induction n with
  | zero => intro g i j e he; simp [solveA] at he
  | succ n ih =>
    intro g i j e he
    by_cases hz : g i j = 0
    · have he' : e ∈ (tryGuessesA (fun ni nj g2 => solveA n g2 ni nj) g i j guessList).checks := by
        simpa [solveA, hz] using he
      have hasc : List.Pairwise (· < ·) guessList := by decide
      have hlt0 : ∀ x ∈ guessList, (0 : Fin 10) < x := by decide
      refine tryGuessesA_checks (fun ni nj g2 => solveA n g2 ni nj)
        (fun ni nj g2 h => solveA_restore n g2 ni nj h)
        (fun ni nj g2 e2 he2 => ih g2 ni nj e2 he2)
        guessList g i j hasc ?_ e he'
      intro x hx
      rw [hz]
      exact hlt0 x hx
    · cases hnext : nextLocation i j with
      | none => simp [solveA, hz, hnext] at he
      | some q =>
        obtain ⟨ni, nj⟩ := q
        have he' : e ∈ (solveA n g ni nj).checks := by
          simpa [solveA, hz, hnext] using he
        exact ih g ni nj e he'

/-! ## A fully filled grid is accepted immediately, whatever it contains -/

theorem solveA_allNonzero :
    ∀ (n : Nat) (g : Grid) (i j : Fin 9), (∀ a b : Fin 9, g a b ≠ 0) →
      81 - (9 * i.val + j.val) ≤ n → solveA n g i j = SR.mk true g [] [] := by
  intro n
  induction n with
  | zero =>
    intro g i j _ hn
    have := i.isLt; have := j.isLt
    omega
  | succ n ih =>
    intro g i j hfull hn
    have hz : g i j ≠ 0 := hfull i j
    cases hnext : nextLocation i j with
    | none => simp [solveA, hz, hnext]
    | some q =>
      obtain ⟨ni, nj⟩ := q
      have hidx := nextLocation_idx i j ni nj hnext
      have : solveA n g ni nj = SR.mk true g [] [] := ih g ni nj hfull (by omega)
      simp [solveA, hz, hnext, this]

/-! ## The depth bound is never exhausted from a legal start -/

theorem tryGuessesA_congr (recur1 recur2 : Fin 9 → Fin 9 → Grid → SR) (i j : Fin 9)
    (h : ∀ ni nj g2, nextLocation i j = some (ni, nj) → recur1 ni nj g2 = recur2 ni nj g2) :
    ∀ (gs : List (Fin 10)) (g : Grid),
      tryGuessesA recur1 g i j gs = tryGuessesA recur2 g i j gs := by
  intro gs
  induction gs with
  | nil => intro g; rfl
  | cons guess rest ih =>
    intro g
    by_cases hv : isValidGuess g i j guess
    · cases hnext : nextLocation i j with
      | none => simp [tryGuessesA, hv, hnext]
      | some q =>
        obtain ⟨ni, nj⟩ := q
        have hr := h ni nj (update g i j guess) hnext
        simp only [tryGuessesA, hv, if_true, hnext, hr, ih]
    · simp [tryGuessesA, hv, ih]

theorem solveA_fuel_high :
    ∀ (m n : Nat) (g : Grid) (i j : Fin 9),
      81 - (9 * i.val + j.val) ≤ m → 81 - (9 * i.val + j.val) ≤ n →
      solveA m g i j = solveA n g i j := by
  intro m
  induction m with
  | zero =>
    intro n g i j hm _
    have := i.isLt; have := j.isLt
    omega
  | succ m ih =>
    intro n g i j hm hn
    cases n with
    | zero =>
      have := i.isLt; have := j.isLt
      omega
    | succ n =>
      by_cases hz : g i j = 0
      · have hcongr := tryGuessesA_congr (fun ni nj g2 => solveA m g2 ni nj)
          (fun ni nj g2 => solveA n g2 ni nj) i j
          (fun ni nj g2 hnext => by
            have hidx := nextLocation_idx i j ni nj hnext
            exact ih n g2 ni nj (by omega) (by omega))
          guessList g
        simp only [solveA, hz, ne_eq, not_true_eq_false, if_false, hcongr]
      · cases hnext : nextLocation i j with
        | none => simp [solveA, hz, hnext]
        | some q =>
          obtain ⟨ni, nj⟩ := q
          have hidx := nextLocation_idx i j ni nj hnext
          have := ih n g ni nj (by omega) (by omega)
          simp [solveA, hz, hnext, this]

/-! ## Nine distinct non-zero digits are exactly the digits 1..9 -/

theorem count_one_of_nine (l : List (Fin 10)) (hlen : l.length = 9) (hnd : l.Nodup)
    (hnz : ∀ x ∈ l, x ≠ 0) : ∀ v : Fin 10, v ≠ 0 → l.count v = 1 := by
  intro v hv
  have hsub : l.toFinset ⊆ Finset.univ.erase (0 : Fin 10) := by
    intro x hx
    exact Finset.mem_erase.2 ⟨hnz x (List.mem_toFinset.1 hx), Finset.mem_univ x⟩
  have hcard : (Finset.univ.erase (0 : Fin 10)).card = 9 := by decide
  have htf : l.toFinset.card = 9 := by
    rw [List.toFinset_card_of_nodup hnd, hlen]
  have heq : l.toFinset = Finset.univ.erase (0 : Fin 10) :=
    Finset.eq_of_subset_of_card_le hsub (by rw [htf, hcard])
  have hmem : v ∈ l := by
    have : v ∈ l.toFinset := by
      rw [heq]
      exact Finset.mem_erase.2 ⟨hv, Finset.mem_univ v⟩
    exact List.mem_toFinset.1 this
  exact List.count_eq_one_of_mem hnd hmem

/-! ## The 27 units: shape facts -/

theorem allUnits_shape : ∀ u ∈ allUnits, u.length = 9 ∧ u.Nodup := by decide

set_option maxRecDepth 40000 in
theorem allUnits_sameUnit : ∀ u ∈ allUnits, ∀ p ∈ u, ∀ q ∈ u, sameUnit p q := by decide

/-! ## Parsing facts -/

theorem mapM_isSome {α β : Type} (f : α → Option β) :
    ∀ l : List α, (∀ a ∈ l, (f a).isSome = true) →
      ∃ r : List β, l.mapM f = some r ∧ r.length = l.length := by
  intro l
  induction l with
  | nil => intro _; exact ⟨[], rfl, rfl⟩
  | cons a t ih =>
    intro h
    obtain ⟨b, hb⟩ := Option.isSome_iff_exists.1 (h a (by simp))
    obtain ⟨r, hr, hlen⟩ := ih (fun x hx => h x (by simp [hx]))
    refine ⟨b :: r, ?_, by simp [hlen]⟩
    rw [List.mapM_cons, hb, hr]
    rfl

theorem splitStringInterval_sub (n : Nat) (s : List Char) :
    ∀ ch ∈ splitStringInterval s n, ∀ c ∈ ch, c ∈ s := by
  intro ch hch c hc
  simp only [splitStringInterval, List.mem_map, List.mem_range] at hch
  obtain ⟨k, _, hk⟩ := hch
  rw [← hk] at hc
  exact List.drop_subset _ _ (List.take_subset _ _ hc)

theorem splitStringInterval_one_len (s : List Char) :
    ∀ ch ∈ splitStringInterval s 1, ch.length = 1 := by
  intro ch hch
  simp only [splitStringInterval, List.mem_map, List.mem_range] at hch
  obtain ⟨k, hkr, hk⟩ := hch
  have hlen : k < s.length := by omega
  rw [← hk, List.length_take, List.length_drop]
  omega

theorem strToInt_isSome_of_digit (c : Char) (h : c.isDigit = true) :
    (strToInt [c]).isSome = true := by
  simp [strToInt, h]

/-! ## Facts about the concrete grids used as witnesses -/

set_option maxRecDepth 40000 in
theorem gSolved_cf : conflictFree gSolved := by decide

/-! ## The claims -/

/-- C1, as stated, is false: `solve(0,0)` can return true on a grid whose
rows are not the set {1,...,9}.  On the all-ones grid (every cell
pre-filled with 1) `solve` returns true, yet row 0 of the resulting grid
contains no 2 at all. -/
theorem solve_true_units_cex :
    (solve0 gOnes).ok = true ∧ rowUnit 0 ∈ allUnits ∧
    ((rowUnit 0).map (fun p => (solve0 gOnes).grid p.1 p.2)).count 2 ≠ 1 := by
  refine ⟨by decide, by decide, by decide⟩

/-- C1 (amended): for every input grid whose non-zero cells are
conflict-free, if `solve(0,0)` returns true then every row, every column
and every 3x3 box of the resulting grid holds exactly the set {1,...,9}
with no repeats (each non-zero digit occurs exactly once among the nine
cells of each unit). -/
theorem solve_true_units (g : Grid) (hcf : conflictFree g)
    (hok : (solve0 g).ok = true) :
    ∀ u ∈ allUnits, ∀ v : Fin 10, v ≠ 0 →
      (u.map (fun p => (solve0 g).grid p.1 p.2)).count v = 1 := by
  intro u hu v hv
  have hcomplete : ∀ p : Pos, (solve0 g).grid p.1 p.2 ≠ 0 := by
    intro p
    exact solveA_complete 81 g 0 0 hok p (by simp [idxP])
  have hcfF : conflictFree (solve0 g).grid := solveA_cf 81 g 0 0 hcf
  obtain ⟨hlen, hnd⟩ := allUnits_shape u hu
  have hsame := allUnits_sameUnit u hu
  apply count_one_of_nine
  · rw [List.length_map, hlen]
  · refine List.Nodup.map_on ?_ hnd
    intro p hp q hq hfe
    by_contra hne
    exact hcfF p q hne (hsame p hp q hq) (hcomplete p) hfe
  · intro x hx
    obtain ⟨p, hp, hpx⟩ := List.mem_map.1 hx
    rw [← hpx]
    exact hcomplete p
  · exact hv

/-- Witness for C1 (amended) at the concrete conflict-free grid `gSolved`. -/
theorem solve_true_units_witness :
    conflictFree gSolved ∧
    ((solve0 gSolved).ok = true ∧
      ∀ u ∈ allUnits, ∀ v : Fin 10, v ≠ 0 →
        (u.map (fun p => (solve0 gSolved).grid p.1 p.2)).count v = 1) :=
  ⟨gSolved_cf, by decide, solve_true_units gSolved gSolved_cf (by decide)⟩

/-- C2: whenever `solve(0,0)` returns false, the call (which raises no
exception: the embedding is a total function) leaves the grid exactly
equal to its input state: zero cells are zero again and non-zero cells are
unchanged. -/
theorem solve_false_restores (g : Grid) (h : (solve0 g).ok = false) :
    (solve0 g).grid = g :=
  solveA_restore 81 g 0 0 h

/-- Witness for C2 at the unsolvable concrete grid `gStuck`. -/
theorem solve_false_restores_witness :
    (solve0 gStuck).ok = false ∧ (solve0 gStuck).grid = gStuck :=
  ⟨by decide, solve_false_restores gStuck (by decide)⟩

/-- C3, as stated, is false: without a conflict-free precondition there is
a reachable grid state (the initial one) whose rows contain duplicates.
The all-ones grid is reachable from itself and has two equal non-zero
cells in row 0. -/
theorem reachable_conflictFree_cex :
    gOnes ∈ reachStates gOnes ∧ ¬ conflictFree gOnes := by
  constructor
  · simp [reachStates]
  · decide

/-- C3 (amended): if the initial grid is conflict-free, then every grid
state reachable during `solve(0,0)` (the initial grid and the state after
each assignment or reset) has no duplicate non-zero value in any row,
column or 3x3 box. -/
theorem reachable_conflictFree (g : Grid) (hcf : conflictFree g) :
    ∀ s ∈ reachStates g, conflictFree s := by
  intro s hs
  rcases List.mem_cons.1 hs with h | h
  · rw [h]; exact hcf
  · exact solveA_states 81 g 0 0 hcf s h

/-- Witness for C3 (amended) at the concrete conflict-free grid `gSolved`. -/
theorem reachable_conflictFree_witness :
    conflictFree gSolved ∧ ∀ s ∈ reachStates gSolved, conflictFree s :=
  ⟨gSolved_cf, reachable_conflictFree gSolved gSolved_cf⟩

/-- C4: every cell that is non-zero on entry to `solve(0,0)` holds the
same value after the call returns, whatever the boolean result: the search
never writes to a pre-filled cell. -/
theorem solve_preserves_fixed (g : Grid) (i j : Fin 9) (h : g i j ≠ 0) :
    (solve0 g).grid i j = g i j :=
  solveA_preserve 81 g 0 0 i j h

/-- Witness for C4 at the concrete grid `gStuck` and its fixed cell `(0,1)`. -/
theorem solve_preserves_fixed_witness :
    gStuck 0 1 ≠ 0 ∧ (solve0 gStuck).grid 0 1 = gStuck 0 1 :=
  ⟨by decide, solve_preserves_fixed gStuck 0 1 (by decide)⟩

/-- C5: for every grid, position `(i, j)` and value, `_is_valid_guess`
returns true iff no cell of row `i`, no cell of column `j`, and no cell of
the 3x3 box spanning rows `(i//3)*3 .. (i//3)*3+2` and columns
`(j//3)*3 .. (j//3)*3+2` currently holds the value (evaluated against the
grid's current state).  Stated for every value, hence in particular for
every candidate in [1,9]. -/
theorem isValidGuess_spec (g : Grid) (i j : Fin 9) (v : Fin 10) :
    isValidGuess g i j v = true ↔
      (∀ c : Fin 9, g i c ≠ v) ∧ (∀ r : Fin 9, g r j ≠ v) ∧
      (∀ r c : Fin 9,
        (i.val / 3) * 3 ≤ r.val → r.val < (i.val / 3) * 3 + 3 →
        (j.val / 3) * 3 ≤ c.val → c.val < (j.val / 3) * 3 + 3 → g r c ≠ v) := by
  rw [isValidGuess_iff]
  constructor
  · rintro ⟨h1, h2, h3⟩
    exact ⟨h1, h2, fun r c hr1 hr2 hc1 hc2 => h3 r c (by omega) (by omega)⟩
  · rintro ⟨h1, h2, h3⟩
    refine ⟨h1, h2, fun r c hr hc => h3 r c ?_ ?_ ?_ ?_⟩ <;> omega

/-- C6, as stated, is false: after a failed recursive call the cell is
*not* reset to zero before the next candidate's legality check.  On
`gBacktrack`, candidate 1 is placed at `(0,0)`, the recursive call fails,
and the legality check for candidate 2 at `(0,0)` runs while the cell
still holds the failed 1 (the recorded check event has cell value 1). -/
theorem undo_before_next_check_cex :
    CheckEv.mk 0 0 2 1 ∈ (solve0 gBacktrack).checks ∧ (1 : Fin 10) ≠ 0 := by
  exact ⟨by decide, by decide⟩

/-- C6 (amended): the failed candidate is left in the cell (and the cell
is reset to zero only once, after the whole candidate loop fails); at the
moment the legality check for a candidate is evaluated, the current cell
holds a value strictly smaller than that candidate — zero or an earlier
failed candidate — so the stale value can never equal the candidate being
checked. -/
theorem check_cell_lt_cand (g : Grid) (e : CheckEv)
    (he : e ∈ (solve0 g).checks) : e.cellVal < e.cand :=
  solveA_checks 81 g 0 0 e he

/-- Witness for C6 (amended) at the check event of candidate 2 at `(0,0)`
on `gBacktrack`, evaluated while the cell held the failed candidate 1. -/
theorem check_cell_lt_cand_witness :
    CheckEv.mk 0 0 2 1 ∈ (solve0 gBacktrack).checks ∧
    (CheckEv.mk 0 0 2 1).cellVal < (CheckEv.mk 0 0 2 1).cand :=
  ⟨by decide, check_cell_lt_cand gBacktrack (CheckEv.mk 0 0 2 1) (by decide)⟩

/-- C7: `_next_location` is a pure function returning the row-major
successor: `(i, j+1)` when `j < 8`, `(i+1, 0)` when `j = 8` and `i < 8`,
and `None` exactly on the last cell `(8, 8)`. -/
theorem nextLocation_spec : ∀ i j : Fin 9,
    (nextLocation i j).map (fun p => (p.1.val, p.2.val)) =
      (if j.val < 8 then some (i.val, j.val + 1)
       else if i.val < 8 then some (i.val + 1, 0)
       else none) := by
  decide

/-- C8: `solve(0,0)` is deterministic: two runs started from equal grids
return the same boolean and the same final grid (the embedding is a pure
function of the input grid; the candidate order 1..9 and the row-major
cell order are fixed in `guessList` and `nextLocation`). -/
theorem solve_deterministic (g1 g2 : Grid) (h : g1 = g2) :
    (solve0 g1).ok = (solve0 g2).ok ∧ (solve0 g1).grid = (solve0 g2).grid := by
  subst h
  exact ⟨rfl, rfl⟩

/-- Witness for C8 at the maximally under-constrained all-blank grid. -/
theorem solve_deterministic_witness :
    gZero = gZero ∧
    ((solve0 gZero).ok = (solve0 gZero).ok ∧ (solve0 gZero).grid = (solve0 gZero).grid) :=
  ⟨rfl, solve_deterministic gZero gZero rfl⟩

/-- C9, as stated, is false: constructing the puzzle from a string that is
not exactly 81 digits does not fail.  The 80-character all-digit string is
accepted and a partial grid (last row of 8 cells) is silently built; no
`InvalidInputFormat` error exists in the code. -/
theorem parse_no_format_error_cex :
    s80.length ≠ 81 ∧ (∀ c ∈ s80, c.isDigit = true) ∧
    (createPuzzleGrid s80).isSome = true := by
  refine ⟨by decide, by decide, by decide⟩

/-- C9 (amended): construction performs no format validation: for any
input string consisting of ASCII digits, of any length, a grid of
`⌈length/9⌉` rows is constructed with no error (ragged/partial when the
length is not 81); only a non-digit character makes the construction fail,
with the `ValueError` of Python's `int`, not with `InvalidInputFormat`. -/
theorem createPuzzleGrid_no_validation (s : List Char)
    (h : ∀ c ∈ s, c.isDigit = true) :
    ∃ rows, createPuzzleGrid s = some rows ∧ rows.length = (s.length + 8) / 9 := by
  have hrow : ∀ row ∈ splitStringInterval s 9,
      ((splitStringInterval row 1).mapM strToInt).isSome = true := by
    intro row hrowmem
    have hdig : ∀ ch ∈ splitStringInterval row 1, (strToInt ch).isSome = true := by
      intro ch hch
      have hl := splitStringInterval_one_len row ch hch
      obtain ⟨c, rfl⟩ := List.length_eq_one.1 hl
      have hcr : c ∈ row :=
        splitStringInterval_sub 1 row [c] hch c (List.mem_cons_self c [])
      have hcs : c ∈ s := splitStringInterval_sub 9 s row hrowmem c hcr
      exact strToInt_isSome_of_digit c (h c hcs)
    obtain ⟨r, hr, _⟩ := mapM_isSome strToInt (splitStringInterval row 1) hdig
    rw [hr]
    rfl
  obtain ⟨rows, hr, hlen⟩ := mapM_isSome _ (splitStringInterval s 9) hrow
  refine ⟨rows, hr, ?_⟩
  rw [hlen]
  simp only [splitStringInterval, List.length_map, List.length_range]
  omega

/-- Witness for C9 (amended) at the wrong-length all-digit string `s80`. -/
theorem createPuzzleGrid_no_validation_witness :
    (∀ c ∈ s80, c.isDigit = true) ∧
    ∃ rows, createPuzzleGrid s80 = some rows ∧ rows.length = (s80.length + 8) / 9 :=
  ⟨by decide, createPuzzleGrid_no_validation s80 (by decide)⟩

/-- C10: on a grid whose 81 cells are all non-zero, `solve(0,0)` returns
true and modifies no cell, even when the grid violates the row/column/box
constraints: pre-filled digits are never validated, only skipped. -/
theorem solve_all_filled (g : Grid) (h : ∀ a b : Fin 9, g a b ≠ 0) :
    (solve0 g).ok = true ∧ (solve0 g).grid = g := by
  have heq : solveA 81 g 0 0 = SR.mk true g [] [] :=
    solveA_allNonzero 81 g 0 0 h (by simp)
  constructor
  · show (solveA 81 g 0 0).ok = true
    rw [heq]
  · show (solveA 81 g 0 0).grid = g
    rw [heq]

/-- Witness for C10 at the all-ones grid, which violates every row
constraint yet is returned unchanged with `true`. -/
theorem solve_all_filled_witness :
    (∀ a b : Fin 9, gOnes a b ≠ 0) ∧
    ((solve0 gOnes).ok = true ∧ (solve0 gOnes).grid = gOnes) :=
  ⟨by decide, solve_all_filled gOnes (by decide)⟩
